import Mathlib

/-!
Verification of the Managed-Resource Reconciliation Core of the
krateoplatformops/provider-runtime repository, as a shallow embedding in
Lean 4.

Conventions of the embedding:
  * Go `time.Time` values are modelled as `Int` (nanoseconds), with the zero
    time modelled as `0`; `t.After(u)` is `t > u` and `t.IsZero()` is `t = 0`.
  * Parsing and formatting of RFC3339 timestamps (Go's `time.Parse` /
    `Format`, which live in the standard library, outside this repository)
    are threaded through as parameters `parse : String → Option Int`
    (`none` models a parse error) and `fmt : Int → String`.
  * Go `map[string]string` values are modelled as association lists
    (`List (String × String)`); a `nil` Go map is distinguished from an
    empty one by wrapping in `Option`.  Indexing a map returns the zero
    value `""` for a missing key or a `nil` map, exactly as in Go.
  * Fallible Kubernetes / external-client calls are modelled by an
    environment (oracle) that fixes the outcome of each call site; errors
    are values of the error type `KErr` below, `Option KErr` with `none`
    meaning success.
-/

namespace ProviderRuntime

/-- Error model for Go `error` values flowing through the reconciler: a
Kubernetes not-found error, a Kubernetes conflict (stale resourceVersion)
error, any other error carrying a message (`errors.New`), and a wrapped
error (`errors.Wrap(err, msg)`, which returns `nil` for a `nil` argument,
modelled by mapping over `Option KErr`). -/
inductive KErr where
  | notFound : KErr
  | conflict : KErr
  | other : String → KErr
  | wrapped : String → KErr → KErr
deriving DecidableEq, Repr

/-- Embedding of `errors.Wrap` from pkg/errors on an optional error:
`Wrap(nil, msg) = nil`, otherwise the error is wrapped with the message
(confirmed by TestWrap in pkg/errors/errors_test.go). -/
def wrapOpt (e : Option KErr) (msg : String) : Option KErr :=
  e.map (KErr.wrapped msg)

/-- Embedding of `kerrors.IsConflict` on the error model. -/
def isConflict : KErr → Bool
  | KErr.conflict => true
  | _ => false

/-- Embedding of `resource.IgnoreNotFound` (pkg/resource/resource.go): the
supplied error, or `nil` if it is a not-found error. -/
def IgnoreNotFound : Option KErr → Option KErr
  | some KErr.notFound => none
  | e => e

/-- Condition type of a status condition.  Modelled from the spec: the core
upserts conditions keyed by the two types `Synced` and `Ready`
(spec §3, apis/common/v1 condition constructors are not under src/). -/
inductive CondType where
  | Synced : CondType
  | Ready : CondType
deriving DecidableEq, Repr

/-- Status condition carried by a managed object.  Modelled from the spec:
each condition carries its type, a reason, and (for error conditions) the
reported error (spec §3: conditions carry status/reason/message; the
message of a `ReconcileError` condition is the wrapped error). -/
structure Condition where
  ctype : CondType
  reason : String
  errMsg : Option KErr
deriving DecidableEq, Repr

/-- Modelled from the spec: the `Ready=Creating` condition constructor
`prv1.Creating()` (spec §3/§4.F; condition constructors are not under
src/). -/
def CondCreating : Condition := ⟨CondType.Ready, "Creating", none⟩

/-- Modelled from the spec: the `Ready=Deleting` condition constructor
`prv1.Deleting()`. -/
def CondDeleting : Condition := ⟨CondType.Ready, "Deleting", none⟩

/-- Modelled from the spec: the `Synced=ReconcileSuccess` condition
constructor `prv1.ReconcileSuccess()`. -/
def CondReconcileSuccess : Condition := ⟨CondType.Synced, "ReconcileSuccess", none⟩

/-- Modelled from the spec: the `Synced=ReconcilePaused` condition
constructor `prv1.ReconcilePaused()`. -/
def CondReconcilePaused : Condition := ⟨CondType.Synced, "ReconcilePaused", none⟩

/-- Modelled from the spec: the `Synced=ReconcileError(err)` condition
constructor `prv1.ReconcileError(err)`, recording the error it reports. -/
def CondReconcileError (e : KErr) : Condition := ⟨CondType.Synced, "ReconcileError", some e⟩

/-- Annotation map: a Go `map[string]string`, `none` modelling a `nil`
map. -/
abbrev AnnMap := List (String × String)

/-- Managed object: the metadata and status the reconciliation core reads
and writes (spec §3 data model; k8s object plumbing is external). -/
structure Managed where
  anns : Option AnnMap
  finalizers : List String
  deletionTimestamp : Int
  creationTimestamp : Int
  conditions : List Condition
deriving DecidableEq, Repr

/-- Annotation key `krateo.io/external-name` (pkg/meta/meta.go). -/
def AnnotationKeyExternalName : String := "krateo.io/external-name"

/-- Annotation key `krateo.io/external-create-pending` (pkg/meta/meta.go). -/
def AnnotationKeyExternalCreatePending : String := "krateo.io/external-create-pending"

/-- Annotation key `krateo.io/external-create-succeeded` (pkg/meta/meta.go). -/
def AnnotationKeyExternalCreateSucceeded : String := "krateo.io/external-create-succeeded"

/-- Annotation key `krateo.io/external-create-failed` (pkg/meta/meta.go). -/
def AnnotationKeyExternalCreateFailed : String := "krateo.io/external-create-failed"

/-- Annotation key `krateo.io/paused` (pkg/meta/meta.go). -/
def AnnotationKeyReconciliationPaused : String := "krateo.io/paused"

/-- Annotation key `krateo.io/management-policy` (pkg/meta/meta.go). -/
def AnnotationKeyManagementPolicy : String := "krateo.io/management-policy"

/-- Management policy `default` (pkg/meta/meta.go). -/
def ManagementPolicyDefault : String := "default"

/-- Management policy `observe-create-update` (pkg/meta/meta.go). -/
def ManagementPolicyObserveCreateUpdate : String := "observe-create-update"

/-- Management policy `observe-delete` (pkg/meta/meta.go). -/
def ManagementPolicyObserveDelete : String := "observe-delete"

/-- Management policy `observe` (pkg/meta/meta.go). -/
def ManagementPolicyObserve : String := "observe"

/-- Action string `create` (pkg/meta/meta.go). -/
def ActionCreate : String := "create"

/-- Action string `update` (pkg/meta/meta.go). -/
def ActionUpdate : String := "update"

/-- Action string `delete` (pkg/meta/meta.go). -/
def ActionDelete : String := "delete"

/-- Go map assignment `a[k] = v` on an association-list model of a map:
replace the entries carrying key `k`, or append the binding when the key is
absent. -/
def upsertAnn (l : AnnMap) (k v : String) : AnnMap :=
  if l.any (fun p => p.1 == k) then
    l.map (fun p => if p.1 == k then (k, v) else p)
  else l ++ [(k, v)]

/-- Embedding of `meta.AddAnnotations` (pkg/meta/meta.go lines 139-149):
when the object's annotation map is `nil`, install the supplied map;
otherwise assign every supplied binding into the existing map. -/
def AddAnnotations (o : Managed) (m : AnnMap) : Managed :=
  match o.anns with
  | none => { o with anns := some m }
  | some l => { o with anns := some (m.foldl (fun acc kv => upsertAnn acc kv.1 kv.2) l) }

/-- Embedding of `meta.RemoveAnnotations` (pkg/meta/meta.go lines 152-161):
no-op on a `nil` map, otherwise delete each listed key. -/
def RemoveAnnotations (o : Managed) (ks : List String) : Managed :=
  match o.anns with
  | none => o
  | some l => { o with anns := some (ks.foldl (fun acc k => acc.filter (fun p => p.1 != k)) l) }

/-- Go map indexing `o.GetAnnotations()[k]`: the stored value, or the zero
value `""` when the key is absent or the map is `nil`. -/
def getAnn (o : Managed) (k : String) : String :=
  match o.anns with
  | none => ""
  | some l => (l.lookup k).getD ""

/-- Map lookup distinguishing absence from the empty string (used to state
set-level properties about the annotations). -/
def getAnnOpt (o : Managed) (k : String) : Option String :=
  match o.anns with
  | none => none
  | some l => l.lookup k

/-- Embedding of `meta.IsPaused` (pkg/meta/meta.go): the
`krateo.io/paused` annotation has value exactly `"true"`. -/
def IsPaused (o : Managed) : Bool :=
  getAnn o AnnotationKeyReconciliationPaused == "true"

/-- Embedding of `meta.WasDeleted` (pkg/meta/meta.go): the deletion
timestamp is non-zero. -/
def WasDeleted (o : Managed) : Bool :=
  o.deletionTimestamp != 0

/-- Embedding of `meta.IsActionAllowed` (pkg/meta/meta.go lines 283-295):
read the management-policy annotation, default it when empty, and allow
create/update under `default` or `observe-create-update`, any other action
under `default` or `observe-delete`. -/
def IsActionAllowed (o : Managed) (action : String) : Bool :=
  let p0 := getAnn o AnnotationKeyManagementPolicy
  let p := if p0.length == 0 then ManagementPolicyDefault else p0
  if action == ActionCreate || action == ActionUpdate then
    p == ManagementPolicyDefault || p == ManagementPolicyObserveCreateUpdate
  else
    p == ManagementPolicyDefault || p == ManagementPolicyObserveDelete

/-- Go annotation read `a := o.GetAnnotations()[k]` followed by
`time.Parse(time.RFC3339, a)` with a parse error yielding the zero time
(pkg/meta/meta.go `GetExternalCreate*`). -/
def getTimeAnn (parse : String → Option Int) (o : Managed) (k : String) : Int :=
  (parse (getAnn o k)).getD 0

/-- Embedding of `meta.GetExternalCreatePending` (pkg/meta/meta.go). -/
def GetExternalCreatePending (parse : String → Option Int) (o : Managed) : Int :=
  getTimeAnn parse o AnnotationKeyExternalCreatePending

/-- Embedding of `meta.GetExternalCreateSucceeded` (pkg/meta/meta.go). -/
def GetExternalCreateSucceeded (parse : String → Option Int) (o : Managed) : Int :=
  getTimeAnn parse o AnnotationKeyExternalCreateSucceeded

/-- Embedding of `meta.GetExternalCreateFailed` (pkg/meta/meta.go). -/
def GetExternalCreateFailed (parse : String → Option Int) (o : Managed) : Int :=
  getTimeAnn parse o AnnotationKeyExternalCreateFailed

/-- Embedding of `meta.ExternalCreateIncomplete` (pkg/meta/meta.go lines
241-257): false when pending is zero, otherwise compare pending against the
later of succeeded and failed using `After` (strict). -/
def ExternalCreateIncomplete (parse : String → Option Int) (o : Managed) : Bool :=
  let pending := GetExternalCreatePending parse o
  let succeeded := GetExternalCreateSucceeded parse o
  let failed := GetExternalCreateFailed parse o
  if pending == 0 then false
  else
    let latest := if failed > succeeded then failed else succeeded
    pending > latest

/-- Embedding of `meta.ExternalCreateSucceededDuring` (pkg/meta/meta.go):
`succeeded ≠ zero ∧ now − succeeded < d`. -/
def ExternalCreateSucceededDuring (parse : String → Option Int) (o : Managed)
    (now d : Int) : Bool :=
  let t := GetExternalCreateSucceeded parse o
  if t == 0 then false else now - t < d

/-- Effect on the backing array of the Go statement
`f = append(f[:i], f[i+1:]...)` inside `meta.RemoveFinalizer`'s loop: the
elements of the current slice (length `flen`) after position `i` are copied
one slot to the left in place; positions from `flen - 1` on keep their old
contents.  The array keeps its length. -/
def shiftDel (arr : List String) (i flen : Nat) : List String :=
  arr.take i ++ (arr.drop (i + 1)).take (flen - 1 - i) ++ arr.drop (flen - 1)

/-- Iterations of the loop `for i, e := range f` in `meta.RemoveFinalizer`
(pkg/meta/meta.go lines 92-100).  Go's `range f` snapshots the slice
header once — the iteration count is the original length `n` and `e` is
read from the shared backing array, which the in-loop `append` mutates in
place — so the loop state is the backing array `arr` (constant length `n`)
plus the current slice length `flen`; `fuel` counts the remaining
iterations (`n - i`).  The slice expression `f[i+1:]` panics when
`i + 1 > len(f)`, modelled by `none`. -/
def removeFinalizerLoop (fin : String) : Nat → List String → Nat → Nat → Option (List String × Nat)
  | 0, arr, flen, _ => some (arr, flen)
  | fuel + 1, arr, flen, i =>
    if arr[i]? == some fin then
      if flen < i + 1 then none
      else removeFinalizerLoop fin fuel (shiftDel arr i flen) (flen - 1) (i + 1)
    else removeFinalizerLoop fin fuel arr flen (i + 1)

/-- Embedding of the body of `meta.RemoveFinalizer` on a finalizer list:
run the loop over the original length and return the final slice
(`arr` truncated to `flen`); `none` models a runtime panic. -/
def removeFinalizerGo (l : List String) (fin : String) : Option (List String) :=
  (removeFinalizerLoop fin l.length l l.length 0).map (fun r => r.1.take r.2)

/-- Embedding of `meta.RemoveFinalizer` (pkg/meta/meta.go lines 92-100) on
a managed object. -/
def RemoveFinalizer (o : Managed) (fin : String) : Option Managed :=
  (removeFinalizerGo o.finalizers fin).map (fun l => { o with finalizers := l })

/-- Per-key state of the exponential timed-failure rate limiter: the
`FailureRequest` struct of the workqueue package (source embedded in
src/pkg/context/context_test.go): number of attempts and the time of the
last attempt. -/
structure FailureRequest where
  attempts : Nat
  lastAttempt : Int
deriving DecidableEq, Repr

/-- State and configuration of
`TypedItemExponentialTimedFailureRateLimiter` (src/pkg/context/
context_test.go, embedded workqueue source): the per-item failure map and
the base/maximum delays; durations are `Int` nanoseconds. -/
structure TimedLimiter where
  failures : List (String × FailureRequest)
  baseDelay : Int
  maxDelay : Int
deriving DecidableEq, Repr

/-- Embedding of `NewExponentialTimedFailureRateLimiter`: empty failure
map with the supplied delays. -/
def newTimedLimiter (baseDelay maxDelay : Int) : TimedLimiter :=
  ⟨[], baseDelay, maxDelay⟩

/-- Go's `math.MaxInt64`. -/
def maxInt64 : Int := 9223372036854775807

/-- Go map assignment `r.failures[item] = fr` modelled on the association
list: bind the key in front and drop older bindings. -/
def setFailure (l : List (String × FailureRequest)) (k : String) (fr : FailureRequest) :
    List (String × FailureRequest) :=
  (k, fr) :: l.filter (fun p => p.1 != k)

/-- Embedding of `TypedItemExponentialTimedFailureRateLimiter.When`
(src/pkg/context/context_test.go lines 157-188): an unseen item is stored
with one attempt and gets the base delay; an item idle for more than twice
the maximum delay gets `0` with the state untouched; otherwise the attempt
counter and last-attempt time are updated and the delay is
`baseDelay · 2^attempts` clamped at the maximum.  The Go float computation
`float64(baseDelay.Nanoseconds()) * math.Pow(2, exp)` is modelled exactly
over `Int` (exact for the magnitudes the clamp admits), keeping the
overflow guard against `math.MaxInt64`; `now` stands for the `time.Now()`
reads of the call. -/
def limiterWhen (r : TimedLimiter) (now : Int) (item : String) : Int × TimedLimiter :=
  match r.failures.lookup item with
  | none => (r.baseDelay, { r with failures := setFailure r.failures item ⟨1, now⟩ })
  | some fr =>
    if now - fr.lastAttempt > 2 * r.maxDelay then (0, r)
    else
      let exp := fr.attempts
      let r' := { r with failures := setFailure r.failures item ⟨fr.attempts + 1, now⟩ }
      let backoff := r.baseDelay * 2 ^ exp
      if backoff > maxInt64 then (r.maxDelay, r')
      else if backoff > r.maxDelay then (r.maxDelay, r')
      else (backoff, r')

/-- Embedding of `NumRequeues`: the attempts of the item's entry, with the
Go zero value for an absent key. -/
def limiterNumRequeues (r : TimedLimiter) (item : String) : Nat :=
  ((r.failures.lookup item).getD ⟨0, 0⟩).attempts

/-- Embedding of `Forget`: delete the entry only when it has been idle for
more than twice the maximum delay (absent keys read as the zero value). -/
def limiterForget (r : TimedLimiter) (now : Int) (item : String) : TimedLimiter :=
  if now - ((r.failures.lookup item).getD ⟨0, 0⟩).lastAttempt > 2 * r.maxDelay then
    { r with failures := r.failures.filter (fun p => p.1 != item) }
  else r

/-- Consecutive `When` calls for the same item at the given times,
collecting the returned delays and threading the limiter state. -/
def whenSeq (r : TimedLimiter) (item : String) : List Int → List Int × TimedLimiter
  | [] => ([], r)
  | t :: ts =>
    let dr := limiterWhen r t item
    let rest := whenSeq dr.2 item ts
    (dr.1 :: rest.1, rest.2)

/-- Consecutive-call gaps: every time in the list is less than `bound`
after its predecessor. -/
def gapsLT (bound : Int) : Int → List Int → Bool
  | _, [] => true
  | prev, t :: ts => decide (t - prev < bound) && gapsLT bound t ts

/-- Expected delays of calls `a, a+1, …, a+n-1` of the exponential
backoff with base `b` clamped at `m`. -/
def expDelays (b m : Int) (a : Nat) : Nat → List Int
  | 0 => []
  | n + 1 => min (b * 2 ^ a) m :: expDelays b m (a + 1) n

/-- Result type returned to the controller-runtime host:
`reconcile.Result` with fields `Requeue` (bool) and `RequeueAfter` (duration). -/
structure Result where
  requeue : Bool
  requeueAfter : Int
deriving DecidableEq, Repr

/-- Call events observable from the rate-limited dispatcher: a `When`
consultation of the wrapped limiter, a `Forget`, and a forward to the
inner reconciler. -/
inductive RLCall where
  | whenCall : String → RLCall
  | forget : String → RLCall
  | inner : String → RLCall
deriving DecidableEq, Repr

/-- Outcome of one dispatcher `Reconcile`: the result/error pair returned
to the host, the new limited-set, and the trace of calls made. -/
structure RLOut where
  res : Result
  err : Option KErr
  limited : List String
  trace : List RLCall
deriving DecidableEq, Repr

/-- Embedding of `ratelimiter.Reconciler.Reconcile` together with its
`when` helper (pkg/ratelimiter/reconciler.go lines 32-73).  The item key is
`name + req.String()`.  If the item is in the limited-set, `when` removes
it and reports `0` without consulting the wrapped limiter; otherwise the
limiter's reply `whenD` is consulted and a non-zero reply inserts the item.
A positive delay short-circuits with `RequeueAfter = d` and a nil error;
otherwise the dispatcher calls `Forget` on the item and forwards to the
inner reconciler, whose outcome `innerOut` the environment supplies. -/
def rlReconcile (name req : String) (limited : List String) (whenD : Int)
    (innerOut : Result × Option KErr) : RLOut :=
  let item := name ++ req
  if item ∈ limited then
    ⟨innerOut.1, innerOut.2, limited.erase item,
      [RLCall.forget item, RLCall.inner req]⟩
  else
    let limited1 := if whenD != 0 then item :: limited else limited
    if whenD > 0 then ⟨⟨false, whenD⟩, none, limited1, [RLCall.whenCall item]⟩
    else ⟨innerOut.1, innerOut.2, limited1,
      [RLCall.whenCall item, RLCall.forget item, RLCall.inner req]⟩

/-- Modelled from the spec: `meta.ShouldDelete`, referenced by
pkg/reconciler/reconciler.go but whose source file is not under src/.
Spec §4.F step 3 guards the delete-orphan short circuit with
`WasDeleted ∧ ¬IsActionAllowed(delete)` and step 9a calls `Client.Delete`
when `IsActionAllowed(delete)`. -/
def ShouldDelete (o : Managed) : Bool := IsActionAllowed o ActionDelete

/-- Modelled from the spec: `meta.ShouldCreate` — spec §4.F step 11 enters
the create path when `¬exists ∧ IsActionAllowed(create)`. -/
def ShouldCreate (o : Managed) : Bool := IsActionAllowed o ActionCreate

/-- Modelled from the spec: `meta.ShouldUpdate` — spec §4.F step 14 skips
the update when `¬IsActionAllowed(update)`. -/
def ShouldUpdate (o : Managed) : Bool := IsActionAllowed o ActionUpdate

/-- Modelled from the spec: `meta.ShouldOnlyObserve` — spec §4.F step 7
fires when the management policy is exactly `observe`. -/
def ShouldOnlyObserve (o : Managed) : Bool :=
  getAnn o AnnotationKeyManagementPolicy == ManagementPolicyObserve

/-- Modelled from the spec: upsert of one condition keyed by its type
(spec §3: the status "includes a ConditionedStatus — a set of conditions
keyed by type"; the condition-set code is not under src/). -/
def upsertCond (cur : List Condition) (c : Condition) : List Condition :=
  if cur.any (fun c0 => c0.ctype == c.ctype) then
    cur.map (fun c0 => if c0.ctype == c.ctype then c else c0)
  else cur ++ [c]

/-- Modelled from the spec: `SetConditions` upserts each supplied
condition into the object's condition set. -/
def SetConditions (o : Managed) (cs : List Condition) : Managed :=
  { o with conditions := cs.foldl upsertCond o.conditions }

/-- Embedding of `meta.SetExternalCreatePending` (pkg/meta/meta.go):
stamp the pending annotation with the formatted time. -/
def SetExternalCreatePending (fmt : Int → String) (o : Managed) (t : Int) : Managed :=
  AddAnnotations o [(AnnotationKeyExternalCreatePending, fmt t)]

/-- Embedding of `meta.SetExternalCreateSucceeded` (pkg/meta/meta.go). -/
def SetExternalCreateSucceeded (fmt : Int → String) (o : Managed) (t : Int) : Managed :=
  AddAnnotations o [(AnnotationKeyExternalCreateSucceeded, fmt t)]

/-- Embedding of `meta.SetExternalCreateFailed` (pkg/meta/meta.go). -/
def SetExternalCreateFailed (fmt : Int → String) (o : Managed) (t : Int) : Managed :=
  AddAnnotations o [(AnnotationKeyExternalCreateFailed, fmt t)]

/-- Error string `errGetManaged` (pkg/reconciler/reconciler.go). -/
def errGetManaged : String := "cannot get managed resource"

/-- Error string `errUpdateManagedAnnotations` (pkg/reconciler/reconciler.go). -/
def errUpdateManagedAnnotations : String := "cannot update managed resource annotations"

/-- Error string `errCreateIncomplete` (pkg/reconciler/reconciler.go). -/
def errCreateIncomplete : String :=
  "cannot determine creation result - remove the " ++
    AnnotationKeyExternalCreatePending ++ " annotation if it is safe to proceed"

/-- Error string `errReconcileConnect` (pkg/reconciler/reconciler.go). -/
def errReconcileConnect : String := "connect failed"

/-- Error string `errReconcileObserve` (pkg/reconciler/reconciler.go). -/
def errReconcileObserve : String := "observe failed"

/-- Error string `errReconcileCreate` (pkg/reconciler/reconciler.go). -/
def errReconcileCreate : String := "create failed"

/-- Error string `errReconcileUpdate` (pkg/reconciler/reconciler.go). -/
def errReconcileUpdate : String := "update failed"

/-- Error string `errReconcileDelete` (pkg/reconciler/reconciler.go). -/
def errReconcileDelete : String := "delete failed"

/-- Error string `errExternalResourceNotExist` (pkg/reconciler/reconciler.go). -/
def errExternalResourceNotExist : String := "external resource does not exist"

/-- Error string `errUpdateManaged` (pkg/reconciler, api source). -/
def errUpdateManaged : String := "cannot update managed resource"

/-- Error string `errUpdateManagedStatus` (pkg/reconciler, api source). -/
def errUpdateManagedStatus : String := "cannot update managed resource status"

/-- Embedding of `ExternalObservation` (pkg/reconciler/reconciler.go lines
267-302). -/
structure ExternalObservation where
  resourceExists : Bool
  resourceUpToDate : Bool
  resourceLateInitialized : Bool
  diff : String
deriving DecidableEq, Repr

/-- Call events of one `Reconciler.Reconcile` pass, in program order: the
Get of the managed object, the status update, connect/disconnect, the four
external-client calls, the finalizer collaborator calls, the plain
non-retrying `client.Update` that persists the pending annotation (its
payload records the object's `external-create-pending` annotation at call
time), the plain `client.Update` persisting late initialization, and the
retrying critical-annotation update. -/
inductive Call where
  | getManaged : Call
  | statusUpdate : Call
  | connect : Call
  | disconnect : Call
  | observe : Call
  | createExt : Call
  | updateExt : Call
  | deleteExt : Call
  | addFin : Call
  | removeFin : Call
  | updatePending : Option String → Call
  | updateLateInit : Call
  | updateCritical : Call
deriving DecidableEq, Repr

/-- Environment of one reconcile pass: the object the Get loads and the
outcome of every fallible collaborator call site (`none` = success).
`observation` is the value Observe returns when `observeErr` is `none`. -/
structure Env where
  managed0 : Managed
  getErr : Option KErr
  statusUpdateErr : Option KErr
  removeFinalizerErr : Option KErr
  addFinalizerErr : Option KErr
  connectErr : Option KErr
  observeErr : Option KErr
  observation : ExternalObservation
  createErr : Option KErr
  deleteErr : Option KErr
  updateExtErr : Option KErr
  updatePendingErr : Option KErr
  updateLateInitErr : Option KErr
  criticalAnnsSucceededErr : Option KErr

/-- Reconciler configuration and ambient values: the current time, poll
interval, creation grace period, the poll-interval hook, and the RFC3339
codec (see the module conventions). -/
structure Params where
  now : Int
  pollInterval : Int
  creationGracePeriod : Int
  hook : Managed → Int → Int
  parse : String → Option Int
  fmt : Int → String

/-- Outcome of one reconcile pass: the result/error pair returned to the
host, the in-memory managed object at return (carrying the conditions
set), and the ordered trace of calls. -/
structure RecOut where
  res : Result
  err : Option KErr
  mg : Managed
  trace : List Call
deriving Repr

/-- Deletion path of `Reconcile` (pkg/reconciler/reconciler.go lines
632-683): delete the external resource when it exists and policy allows,
else remove the finalizer; the trace excludes the leading observe, which
the caller prepends. -/
def deletedPath (env : Env) (mg : Managed) (obs : ExternalObservation) : RecOut :=
  if obs.resourceExists && ShouldDelete mg then
    match env.deleteErr with
    | some e =>
      ⟨⟨true, 0⟩, wrapOpt env.statusUpdateErr errUpdateManagedStatus,
       SetConditions mg [CondDeleting, CondReconcileError (KErr.wrapped errReconcileDelete e)],
       [Call.deleteExt, Call.statusUpdate]⟩
    | none =>
      ⟨⟨true, 0⟩, wrapOpt env.statusUpdateErr errUpdateManagedStatus,
       SetConditions mg [CondDeleting, CondReconcileSuccess],
       [Call.deleteExt, Call.statusUpdate]⟩
  else
    match env.removeFinalizerErr with
    | some e =>
      if isConflict e then ⟨⟨true, 0⟩, none, mg, [Call.removeFin]⟩
      else
        ⟨⟨true, 0⟩, wrapOpt env.statusUpdateErr errUpdateManagedStatus,
         SetConditions mg [CondDeleting, CondReconcileError e],
         [Call.removeFin, Call.statusUpdate]⟩
    | none => ⟨⟨false, 0⟩, none, mg, [Call.removeFin]⟩

/-- Create path of `Reconcile` (pkg/reconciler/reconciler.go lines
697-781): stamp `external-create-pending` with the current time, persist
it with a plain non-retrying `client.Update` (conflict aborts the attempt
with a bare requeue, any other failure aborts with a status write), only
then call `Client.Create`; afterwards stamp failed/succeeded and persist
via the critical-annotation updater. -/
def createPath (p : Params) (env : Env) (mg : Managed) : RecOut :=
  let mg1 := SetExternalCreatePending p.fmt mg p.now
  let updCall := Call.updatePending (getAnnOpt mg1 AnnotationKeyExternalCreatePending)
  match env.updatePendingErr with
  | some e =>
    if isConflict e then ⟨⟨true, 0⟩, none, mg1, [updCall]⟩
    else
      ⟨⟨true, 0⟩, wrapOpt env.statusUpdateErr errUpdateManagedStatus,
       SetConditions mg1 [CondCreating, CondReconcileError (KErr.wrapped errUpdateManaged e)],
       [updCall, Call.statusUpdate]⟩
  | none =>
    match env.createErr with
    | some e =>
      if isConflict e then ⟨⟨true, 0⟩, none, mg1, [updCall, Call.createExt]⟩
      else
        ⟨⟨true, 0⟩, wrapOpt env.statusUpdateErr errUpdateManagedStatus,
         SetConditions (SetExternalCreateFailed p.fmt mg1 p.now)
           [CondCreating, CondReconcileError (KErr.wrapped errReconcileCreate e)],
         [updCall, Call.createExt, Call.updateCritical, Call.statusUpdate]⟩
    | none =>
      let mg2 := SetExternalCreateSucceeded p.fmt mg1 p.now
      match env.criticalAnnsSucceededErr with
      | some e =>
        ⟨⟨true, 0⟩, wrapOpt env.statusUpdateErr errUpdateManagedStatus,
         SetConditions mg2
           [CondCreating, CondReconcileError (KErr.wrapped errUpdateManagedAnnotations e)],
         [updCall, Call.createExt, Call.updateCritical, Call.statusUpdate]⟩
      | none =>
        ⟨⟨true, 0⟩, wrapOpt env.statusUpdateErr errUpdateManagedStatus,
         SetConditions mg2 [CondCreating, CondReconcileSuccess],
         [updCall, Call.createExt, Call.updateCritical, Call.statusUpdate]⟩

/-- Up-to-date / skipped-update / update tail of `Reconcile`
(pkg/reconciler/reconciler.go lines 799-847). -/
def upToDateOrUpdatePath (p : Params) (env : Env) (mg : Managed)
    (obs : ExternalObservation) : RecOut :=
  if obs.resourceUpToDate then
    ⟨⟨false, p.hook mg p.pollInterval⟩,
     wrapOpt env.statusUpdateErr errUpdateManagedStatus,
     SetConditions mg [CondReconcileSuccess], [Call.statusUpdate]⟩
  else if !ShouldUpdate mg then
    ⟨⟨false, p.hook mg p.pollInterval⟩,
     wrapOpt env.statusUpdateErr errUpdateManagedStatus,
     SetConditions mg [CondReconcileSuccess], [Call.statusUpdate]⟩
  else
    match env.updateExtErr with
    | some e =>
      ⟨⟨true, 0⟩, wrapOpt env.statusUpdateErr errUpdateManagedStatus,
       SetConditions mg [CondReconcileError (KErr.wrapped errReconcileUpdate e)],
       [Call.updateExt, Call.statusUpdate]⟩
    | none =>
      ⟨⟨false, p.hook mg p.pollInterval⟩,
       wrapOpt env.statusUpdateErr errUpdateManagedStatus,
       SetConditions mg [CondReconcileSuccess], [Call.updateExt, Call.statusUpdate]⟩

/-- Late-initialization persist (pkg/reconciler/reconciler.go lines
783-797) followed by the up-to-date / update tail. -/
def lateInitPath (p : Params) (env : Env) (mg : Managed)
    (obs : ExternalObservation) : RecOut :=
  if obs.resourceLateInitialized then
    match env.updateLateInitErr with
    | some e =>
      ⟨⟨true, 0⟩, wrapOpt env.statusUpdateErr errUpdateManagedStatus,
       SetConditions mg [CondReconcileError (KErr.wrapped errUpdateManaged e)],
       [Call.updateLateInit, Call.statusUpdate]⟩
    | none =>
      ⟨(upToDateOrUpdatePath p env mg obs).res, (upToDateOrUpdatePath p env mg obs).err,
       (upToDateOrUpdatePath p env mg obs).mg,
       Call.updateLateInit :: (upToDateOrUpdatePath p env mg obs).trace⟩
  else upToDateOrUpdatePath p env mg obs

/-- Transitions after a successful Observe (pkg/reconciler/reconciler.go
lines 613-781): observe-only policy with a missing external resource,
creation grace window, the deletion path, AddFinalizer, the create path,
and the late-init / update tail.  The caller prepends the calls up to and
including the observe. -/
def afterObserve (p : Params) (env : Env) (mg : Managed)
    (obs : ExternalObservation) : RecOut :=
  if !obs.resourceExists && ShouldOnlyObserve mg then
    ⟨⟨true, 0⟩, wrapOpt env.statusUpdateErr errUpdateManagedStatus,
     SetConditions mg [CondReconcileError
       (KErr.wrapped errReconcileObserve (KErr.other errExternalResourceNotExist))],
     [Call.statusUpdate]⟩
  else if !obs.resourceExists &&
      ExternalCreateSucceededDuring p.parse mg p.now p.creationGracePeriod then
    ⟨⟨true, 0⟩, none, mg, []⟩
  else if WasDeleted mg then
    deletedPath env mg obs
  else
    match env.addFinalizerErr with
    | some e =>
      if isConflict e then ⟨⟨true, 0⟩, none, mg, [Call.addFin]⟩
      else
        ⟨⟨true, 0⟩, wrapOpt env.statusUpdateErr errUpdateManagedStatus,
         SetConditions mg [CondReconcileError e], [Call.addFin, Call.statusUpdate]⟩
    | none =>
      if !obs.resourceExists && ShouldCreate mg then
        ⟨(createPath p env mg).res, (createPath p env mg).err, (createPath p env mg).mg,
         Call.addFin :: (createPath p env mg).trace⟩
      else
        ⟨(lateInitPath p env mg obs).res, (lateInitPath p env mg obs).err,
         (lateInitPath p env mg obs).mg, Call.addFin :: (lateInitPath p env mg obs).trace⟩

/-- Embedding of `Reconciler.Reconcile` (pkg/reconciler/reconciler.go
lines 500-847): load the object (not-found is ignored), the paused short
circuit, the delete-with-orphan short circuit, the create-incomplete leak
guard, connect (with the deferred disconnect registered only on success
and run on every later return), observe, then `afterObserve`. -/
def Reconcile (p : Params) (env : Env) : RecOut :=
  match env.getErr with
  | some e =>
    ⟨⟨false, 0⟩, wrapOpt (IgnoreNotFound (some e)) errGetManaged, env.managed0,
     [Call.getManaged]⟩
  | none =>
    let mg := env.managed0
    if IsPaused mg then
      ⟨⟨false, 0⟩, wrapOpt env.statusUpdateErr errUpdateManagedStatus,
       SetConditions mg [CondReconcilePaused], [Call.getManaged, Call.statusUpdate]⟩
    else if WasDeleted mg && !ShouldDelete mg then
      match env.removeFinalizerErr with
      | some e =>
        if isConflict e then ⟨⟨true, 0⟩, none, mg, [Call.getManaged, Call.removeFin]⟩
        else
          ⟨⟨true, 0⟩, wrapOpt env.statusUpdateErr errUpdateManagedStatus,
           SetConditions mg [CondDeleting, CondReconcileError e],
           [Call.getManaged, Call.removeFin, Call.statusUpdate]⟩
      | none => ⟨⟨false, 0⟩, none, mg, [Call.getManaged, Call.removeFin]⟩
    else if ExternalCreateIncomplete p.parse mg then
      ⟨⟨false, 0⟩, wrapOpt env.statusUpdateErr errUpdateManagedStatus,
       SetConditions mg [CondCreating, CondReconcileError (KErr.other errCreateIncomplete)],
       [Call.getManaged, Call.statusUpdate]⟩
    else
      match env.connectErr with
      | some e =>
        if isConflict e then ⟨⟨true, 0⟩, none, mg, [Call.getManaged, Call.connect]⟩
        else
          ⟨⟨true, 0⟩, wrapOpt env.statusUpdateErr errUpdateManagedStatus,
           SetConditions mg [CondReconcileError (KErr.wrapped errReconcileConnect e)],
           [Call.getManaged, Call.connect, Call.statusUpdate]⟩
      | none =>
        match env.observeErr with
        | some e =>
          if isConflict e then
            ⟨⟨true, 0⟩, none, mg,
             [Call.getManaged, Call.connect, Call.observe, Call.disconnect]⟩
          else
            ⟨⟨true, 0⟩, wrapOpt env.statusUpdateErr errUpdateManagedStatus,
             SetConditions mg [CondReconcileError (KErr.wrapped errReconcileObserve e)],
             [Call.getManaged, Call.connect, Call.observe, Call.statusUpdate,
              Call.disconnect]⟩
        | none =>
          ⟨(afterObserve p env mg env.observation).res,
           (afterObserve p env mg env.observation).err,
           (afterObserve p env mg env.observation).mg,
           [Call.getManaged, Call.connect, Call.observe] ++
             (afterObserve p env mg env.observation).trace ++ [Call.disconnect]⟩

/-- Concrete reconciler parameters used by witnesses: a parse function
recognising the single timestamp string the formatter produces. -/
def witnessParams : Params :=
  ⟨0, 60, 30, fun _ d => d, fun s => if s == "t1" then some 1 else none, fun _ => "t1"⟩

/-- Witness environment for the paused short circuit: a loaded object
whose `krateo.io/paused` annotation is exactly `"true"`. -/
def pausedEnvW : Env :=
  ⟨⟨some [(AnnotationKeyReconciliationPaused, "true")], [], 0, 0, []⟩,
   none, none, none, none, none, none, ⟨false, false, false, ""⟩,
   none, none, none, none, none, none⟩

/-- Witness environment for the leak guard: a loaded object carrying only
the `external-create-pending` annotation. -/
def leakEnvW : Env :=
  ⟨⟨some [(AnnotationKeyExternalCreatePending, "t1")], [], 0, 0, []⟩,
   none, none, none, none, none, none, ⟨false, false, false, ""⟩,
   none, none, none, none, none, none⟩

/-- Witness environment that drives the create path to completion: an
unannotated object (default policy) whose observation reports a missing
external resource, with every call succeeding. -/
def createEnvW : Env :=
  ⟨⟨some [], [], 0, 0, []⟩, none, none, none, none, none, none,
   ⟨false, false, false, ""⟩, none, none, none, none, none, none⟩

/-- Witness environment like `createEnvW` but whose pending-annotation
update hits a conflict. -/
def conflictEnvW : Env :=
  ⟨⟨some [], [], 0, 0, []⟩, none, none, none, none, none, none,
   ⟨false, false, false, ""⟩, none, none, none, some KErr.conflict, none, none⟩

/-- C4: `IsActionAllowed` realises the management-policy truth table:
`default` (or an absent annotation) allows create, update and delete;
`observe-create-update` allows create and update but not delete;
`observe-delete` allows only delete; `observe` allows none.  Stated as
exact Boolean characterisations over an arbitrary object, which restrict to
the claimed table on the four documented policy values and the absent
annotation. -/
theorem isActionAllowed_truth_table (o : Managed) :
    (IsActionAllowed o ActionCreate =
      (getAnn o AnnotationKeyManagementPolicy == "" ||
       getAnn o AnnotationKeyManagementPolicy == ManagementPolicyDefault ||
       getAnn o AnnotationKeyManagementPolicy == ManagementPolicyObserveCreateUpdate)) ∧
    (IsActionAllowed o ActionUpdate =
      (getAnn o AnnotationKeyManagementPolicy == "" ||
       getAnn o AnnotationKeyManagementPolicy == ManagementPolicyDefault ||
       getAnn o AnnotationKeyManagementPolicy == ManagementPolicyObserveCreateUpdate)) ∧
    (IsActionAllowed o ActionDelete =
      (getAnn o AnnotationKeyManagementPolicy == "" ||
       getAnn o AnnotationKeyManagementPolicy == ManagementPolicyDefault ||
       getAnn o AnnotationKeyManagementPolicy == ManagementPolicyObserveDelete)) := by
  simp only [IsActionAllowed, ActionCreate, ActionUpdate, ActionDelete,
    ManagementPolicyDefault, ManagementPolicyObserveCreateUpdate,
    ManagementPolicyObserveDelete]
  generalize getAnn o AnnotationKeyManagementPolicy = p
  by_cases h : p = ""
  · subst h
    refine ⟨?_, ?_, ?_⟩ <;> decide
  · have hlen : (p.length == 0) = false := by
      refine beq_eq_false_iff_ne.mpr ?_
      intro hc
      exact h (String.ext (List.eq_nil_of_length_eq_zero hc))
    have h0 : (p == "") = false := beq_eq_false_iff_ne.mpr h
    refine ⟨?_, ?_, ?_⟩ <;> simp [hlen, h0]

/-- C5: `ExternalCreateIncomplete(o)` holds exactly when the pending
timestamp is non-zero and strictly later than the maximum of the succeeded
and failed timestamps, each timestamp being the one parsed from the
corresponding annotation with absent or unparsable values parsing as the
zero time (which is what `GetExternalCreate*` return). -/
theorem externalCreateIncomplete_iff (parse : String → Option Int) (o : Managed) :
    ExternalCreateIncomplete parse o =
      ((GetExternalCreatePending parse o != 0) &&
       decide (GetExternalCreatePending parse o >
         max (GetExternalCreateSucceeded parse o) (GetExternalCreateFailed parse o))) := by
  simp only [ExternalCreateIncomplete]
  generalize GetExternalCreatePending parse o = p
  generalize GetExternalCreateSucceeded parse o = s
  generalize GetExternalCreateFailed parse o = f
  by_cases hp : p = 0
  · subst hp; simp
  · have hp' : (p == 0) = false := beq_eq_false_iff_ne.mpr hp
    rcases le_or_lt f s with h | h
    · rw [if_neg (by simp [hp']), if_neg (not_lt.mpr h), max_eq_left h]
      simp [bne, hp']
    · rw [if_neg (by simp [hp']), if_pos h, max_eq_right h.le]
      simp [bne, hp']

/-- C10: a non-empty management-policy annotation outside the four
documented values denies create, update and delete alike; and every action
string other than `create` and `update` is evaluated under the delete rule,
so `IsActionAllowed(o, "observe")` is true under the
default (absent) policy. -/
theorem isActionAllowed_unknown_policy (o : Managed) (action : String)
    (h1 : action ≠ ActionCreate) (h2 : action ≠ ActionUpdate) :
    IsActionAllowed o action = IsActionAllowed o ActionDelete ∧
    (getAnn o AnnotationKeyManagementPolicy ≠ "" →
     getAnn o AnnotationKeyManagementPolicy ≠ ManagementPolicyDefault →
     getAnn o AnnotationKeyManagementPolicy ≠ ManagementPolicyObserveCreateUpdate →
     getAnn o AnnotationKeyManagementPolicy ≠ ManagementPolicyObserveDelete →
     getAnn o AnnotationKeyManagementPolicy ≠ ManagementPolicyObserve →
     IsActionAllowed o ActionCreate = false ∧ IsActionAllowed o ActionUpdate = false ∧
       IsActionAllowed o ActionDelete = false) ∧
    (getAnn o AnnotationKeyManagementPolicy = "" →
     IsActionAllowed o "observe" = true) := by
  obtain ⟨hc, hu, hd⟩ := isActionAllowed_truth_table o
  refine ⟨?_, ?_, ?_⟩
  · have e1 : (action == ActionCreate) = false := beq_eq_false_iff_ne.mpr h1
    have e2 : (action == ActionUpdate) = false := beq_eq_false_iff_ne.mpr h2
    simp only [IsActionAllowed, e1, e2, Bool.or_self, Bool.false_or]
    have e3 : (ActionDelete == ActionCreate) = false := by decide
    have e4 : (ActionDelete == ActionUpdate) = false := by decide
    simp [e3, e4]
  · intro g1 g2 g3 g4 _
    refine ⟨?_, ?_, ?_⟩
    · simp only [hc, beq_eq_false_iff_ne.mpr g1, Bool.false_or]
      simp
      exact ⟨g2, g3⟩
    · simp only [hu, beq_eq_false_iff_ne.mpr g1, Bool.false_or]
      simp
      exact ⟨g2, g3⟩
    · simp only [hd, beq_eq_false_iff_ne.mpr g1, Bool.false_or]
      simp
      exact ⟨g2, g4⟩
  · intro g
    have e1 : (("observe" : String) == ActionCreate) = false := by decide
    have e2 : (("observe" : String) == ActionUpdate) = false := by decide
    have glen : (getAnn o AnnotationKeyManagementPolicy).length == 0 := by
      rw [g]; decide
    simp [IsActionAllowed, e1, e2, glen, ManagementPolicyDefault]

/-- Witness for C10 at a concrete object carrying the unknown policy
`custom` and at the action string `observe`. -/
theorem isActionAllowed_unknown_policy_witness :
    IsActionAllowed ⟨some [(AnnotationKeyManagementPolicy, "custom")], [], 0, 0, []⟩ "observe" =
      IsActionAllowed ⟨some [(AnnotationKeyManagementPolicy, "custom")], [], 0, 0, []⟩ ActionDelete ∧
    IsActionAllowed ⟨some [(AnnotationKeyManagementPolicy, "custom")], [], 0, 0, []⟩ ActionCreate =
      false := by
  obtain ⟨a, b, _⟩ := isActionAllowed_unknown_policy
    ⟨some [(AnnotationKeyManagementPolicy, "custom")], [], 0, 0, []⟩ "observe"
    (by decide) (by decide)
  exact ⟨a, (b (by decide) (by decide) (by decide) (by decide) (by decide)).1⟩

/-- Helper: association-list lookup at the head key. -/
theorem lookup_cons_self {β : Type} (x : String) (y : β) (t : List (String × β)) :
    List.lookup x ((x, y) :: t) = some y := by
  simp [List.lookup]

/-- Helper: association-list lookup skips a head with a different key. -/
theorem lookup_cons_ne {β : Type} (x key : String) (y : β) (t : List (String × β))
    (h : (key == x) = false) : List.lookup key ((x, y) :: t) = List.lookup key t := by
  simp [List.lookup, h]

/-- Helper: filtering out key `k` does not change lookups of other keys. -/
theorem lookup_filter_ne (l : AnnMap) (k key : String) (h : key ≠ k) :
    (l.filter (fun p => p.1 != k)).lookup key = l.lookup key := by
  induction l with
  | nil => rfl
  | cons a t ih =>
    obtain ⟨x, y⟩ := a
    by_cases hx : x = k
    · subst hx
      have h2 : (key == x) = false := beq_eq_false_iff_ne.mpr h
      simp [List.filter_cons, h2, ih, lookup_cons_ne _ _ _ _ h2]
    · have h1 : ((x, y).1 != k) = true := by simp [bne, hx]
      by_cases hk : key = x
      · subst hk
        simp [List.filter_cons, h1, lookup_cons_self]
      · have h2 : (key == x) = false := beq_eq_false_iff_ne.mpr hk
        simp [List.filter_cons, h1, lookup_cons_ne _ _ _ _ h2, ih]

/-- Helper: after filtering out key `k`, looking `k` up finds nothing. -/
theorem lookup_filter_self (l : AnnMap) (k : String) :
    (l.filter (fun p => p.1 != k)).lookup k = none := by
  induction l with
  | nil => rfl
  | cons a t ih =>
    obtain ⟨x, y⟩ := a
    by_cases hx : x = k
    · subst hx
      simp [List.filter_cons, ih]
    · have h1 : ((x, y).1 != k) = true := by simp [bne, hx]
      have h2 : (k == x) = false := beq_eq_false_iff_ne.mpr (Ne.symm hx)
      simp [List.filter_cons, h1, lookup_cons_ne _ _ _ _ h2, ih]

/-- Helper: appending a binding for a different key does not change a
lookup. -/
theorem lookup_append_ne (l : AnnMap) (k v key : String) (h : key ≠ k) :
    (l ++ [(k, v)]).lookup key = l.lookup key := by
  induction l with
  | nil => simp [List.nil_append, lookup_cons_ne _ _ _ _ (beq_eq_false_iff_ne.mpr h)]
  | cons a t ih =>
    obtain ⟨x, y⟩ := a
    by_cases hk : key = x
    · subst hk
      simp [List.cons_append, lookup_cons_self]
    · have h2 : (key == x) = false := beq_eq_false_iff_ne.mpr hk
      simp [List.cons_append, lookup_cons_ne _ _ _ _ h2, ih]

/-- Helper: if a key is not bound in an association list, no entry carries
it. -/
theorem any_eq_false_of_lookup_none (l : AnnMap) (k : String) (h : l.lookup k = none) :
    l.any (fun p => p.1 == k) = false := by
  induction l with
  | nil => rfl
  | cons a t ih =>
    obtain ⟨x, y⟩ := a
    by_cases hk : k = x
    · subst hk
      rw [lookup_cons_self] at h
      exact absurd h (by simp)
    · have h2 : (k == x) = false := beq_eq_false_iff_ne.mpr hk
      have h3 : (x == k) = false := beq_eq_false_iff_ne.mpr (Ne.symm hk)
      rw [lookup_cons_ne _ _ _ _ h2] at h
      simp [h3, ih h]

/-- C7 counterexample: when the object already carries the annotation key
being added, `AddAnnotations` then `RemoveAnnotations` does NOT restore the
original annotation set — the pre-existing value `w` under key `k` is
lost. -/
theorem addRemove_roundtrip_cex :
    ¬ (∀ key,
        getAnnOpt (RemoveAnnotations
          (AddAnnotations ⟨some [("k", "w")], [], 0, 0, []⟩ [("k", "v")]) ["k"]) key =
        getAnnOpt ⟨some [("k", "w")], [], 0, 0, []⟩ key) := by
  intro hyp
  have h := hyp "k"
  revert h
  decide

/-- C7 amended: when the object does not already carry an annotation with
key `k` (in particular when it carries no annotations at all),
`AddAnnotations(o, [(k, v)])` followed by `RemoveAnnotations(o, [k])`
leaves the annotation set — the key-to-value lookup — unchanged. -/
theorem addRemove_roundtrip (o : Managed) (k v : String) (h : getAnnOpt o k = none)
    (key : String) :
    getAnnOpt (RemoveAnnotations (AddAnnotations o [(k, v)]) [k]) key = getAnnOpt o key := by
  match ho : o.anns with
  | none =>
    simp [AddAnnotations, RemoveAnnotations, getAnnOpt, ho]
  | some l =>
    have hl : l.lookup k = none := by simpa [getAnnOpt, ho] using h
    have hany := any_eq_false_of_lookup_none l k hl
    by_cases hkey : key = k
    · subst hkey
      simp [getAnnOpt, AddAnnotations, RemoveAnnotations, ho, upsertAnn, hany,
        lookup_filter_self, hl]
    · simp [getAnnOpt, AddAnnotations, RemoveAnnotations, ho, upsertAnn, hany,
        lookup_filter_ne _ _ _ hkey, lookup_append_ne _ _ _ _ hkey]

/-- Witness for the amended C7 at a concrete object that carries an
unrelated annotation. -/
theorem addRemove_roundtrip_witness :
    getAnnOpt ⟨some [("a", "b")], [], 0, 0, []⟩ "k" = none ∧
    getAnnOpt (RemoveAnnotations
        (AddAnnotations ⟨some [("a", "b")], [], 0, 0, []⟩ [("k", "v")]) ["k"]) "a" =
      getAnnOpt ⟨some [("a", "b")], [], 0, 0, []⟩ "a" :=
  ⟨by decide, addRemove_roundtrip ⟨some [("a", "b")], [], 0, 0, []⟩ "k" "v" (by decide) "a"⟩

/-- Helper: the loop finishes without changing its state when the remaining
window of the array contains no occurrence of the finalizer. -/
theorem removeFinalizerLoop_no_match (fin : String) :
    ∀ (fuel : Nat) (arr : List String) (flen i : Nat),
      (∀ x ∈ (arr.drop i).take fuel, ¬x = fin) →
      removeFinalizerLoop fin fuel arr flen i = some (arr, flen) := by
  intro fuel
  induction fuel with
  | zero => intro arr flen i _; rfl
  | succ fuel ih =>
    intro arr flen i h
    have hii : arr[i]? = (arr.drop i)[0]? := by
      rw [List.getElem?_drop, Nat.add_zero]
    match hd : arr.drop i with
    | [] =>
      have hnone : arr[i]? = none := by rw [hii, hd]; rfl
      have hstep : arr.drop (i + 1) = [] := by
        rw [← List.drop_drop, hd]; rfl
      simp only [removeFinalizerLoop, hnone]
      refine ih arr flen (i + 1) ?_
      rw [hstep]
      intro x hx
      simp at hx
    | a :: rest =>
      have ha : ¬a = fin := by
        refine h a ?_
        rw [hd, List.take_succ_cons]
        exact List.mem_cons_self a _
      have hsome : arr[i]? = some a := by rw [hii, hd]; simp
      have hbeq : (arr[i]? == some fin) = false := by
        rw [hsome]; simpa using ha
      have hstep : arr.drop (i + 1) = rest := by
        rw [← List.drop_drop, hd]; rfl
      simp only [removeFinalizerLoop, hbeq, Bool.false_eq_true, if_false]
      refine ih arr flen (i + 1) ?_
      rw [hstep]
      intro x hx
      refine h x ?_
      rw [hd, List.take_succ_cons]
      exact List.mem_cons_of_mem a hx

/-- Helper: the loop walks past a clean run of `w.length` elements without
changing the array or the slice length. -/
theorem removeFinalizerLoop_skip (fin : String) :
    ∀ (w ws : List String) (fuel : Nat) (arr : List String) (flen i : Nat),
      (∀ x ∈ w, ¬x = fin) → arr.drop i = w ++ ws →
      removeFinalizerLoop fin (w.length + fuel) arr flen i =
        removeFinalizerLoop fin fuel arr flen (i + w.length) := by
  intro w
  induction w with
  | nil =>
    intro ws fuel arr flen i _ _
    simp
  | cons a w' ih =>
    intro ws fuel arr flen i hw hd
    have ha : ¬a = fin := hw a (List.mem_cons_self a w')
    have hsome : arr[i]? = some a := by
      rw [show arr[i]? = (arr.drop i)[0]? by rw [List.getElem?_drop, Nat.add_zero], hd]
      simp
    have hbeq : (arr[i]? == some fin) = false := by
      rw [hsome]; simpa using ha
    have hstep : arr.drop (i + 1) = w' ++ ws := by
      rw [← List.drop_drop, hd]; rfl
    have hlen : (a :: w').length + fuel = (w'.length + fuel) + 1 := by
      simp [List.length_cons]; omega
    rw [hlen]
    simp only [removeFinalizerLoop, hbeq, Bool.false_eq_true, if_false]
    rw [ih ws fuel arr flen (i + 1) (fun x hx => hw x (List.mem_cons_of_mem a hx)) hstep]
    congr 1
    simp [List.length_cons]
    omega

/-- Helper: decompose a list at the first occurrence of an element. -/
theorem exists_first_occur {l : List String} {fin : String} (h : fin ∈ l) :
    ∃ pre post, l = pre ++ fin :: post ∧ fin ∉ pre := by
  induction l with
  | nil => cases h
  | cons a t ih =>
    by_cases ha : a = fin
    · exact ⟨[], t, by rw [ha]; rfl, by simp⟩
    · have ht : fin ∈ t := by
        rcases List.mem_cons.mp h with h1 | h1
        · exact absurd h1.symm ha
        · exact h1
      obtain ⟨pre, post, heq, hpre⟩ := ih ht
      refine ⟨a :: pre, post, by rw [heq, List.cons_append], ?_⟩
      intro hmem
      rcases List.mem_cons.mp hmem with h1 | h1
      · exact ha h1.symm
      · exact hpre h1

/-- Helper: list-level statement of the amended C6 — with at most one
occurrence of the finalizer, the Go loop removes it and keeps the rest in
order. -/
theorem removeFinalizerGo_single (l : List String) (fin : String) (h : l.count fin ≤ 1) :
    removeFinalizerGo l fin = some (l.filter (fun s => s != fin)) := by
  by_cases hmem : fin ∈ l
  · obtain ⟨pre, post, heq, hpre⟩ := exists_first_occur hmem
    subst heq
    have hpost : fin ∉ post := by
      intro hp
      have h2 : 2 ≤ (pre ++ fin :: post).count fin := by
        rw [List.count_append, List.count_cons_self]
        have : 0 < post.count fin := List.count_pos_iff.mpr hp
        omega
      omega
    set l := pre ++ fin :: post with hl
    have hn : l.length = pre.length + (post.length + 1) := by
      simp [hl]
    have hprene : ∀ x ∈ pre, ¬x = fin := fun x hx hxf => hpre (hxf ▸ hx)
    have hpostne : ∀ x ∈ post, ¬x = fin := fun x hx hxf => hpost (hxf ▸ hx)
    -- phase 1: walk past pre
    have h1 : removeFinalizerLoop fin l.length l l.length 0 =
        removeFinalizerLoop fin (post.length + 1) l l.length pre.length := by
      have hs := removeFinalizerLoop_skip fin pre (fin :: post) (post.length + 1)
        l l.length 0 hprene (by simp [hl])
      rw [← hn] at hs
      simpa using hs
    -- phase 2: the matching iteration at index pre.length
    have hdropPre : l.drop pre.length = fin :: post := by
      rw [hl]; exact List.drop_left pre (fin :: post)
    have hgetpre : l[pre.length]? = some fin := by
      rw [show l[pre.length]? = (l.drop pre.length)[0]? by
          rw [List.getElem?_drop, Nat.add_zero],
        hdropPre]
      simp
    have hbeq : (l[pre.length]? == some fin) = true := by rw [hgetpre]; simp
    have hnolt : ¬ l.length < pre.length + 1 := by omega
    have h2 : removeFinalizerLoop fin (post.length + 1) l l.length pre.length =
        removeFinalizerLoop fin post.length (shiftDel l pre.length l.length)
          (l.length - 1) (pre.length + 1) := by
      simp only [removeFinalizerLoop, hbeq, if_true, if_neg hnolt]
    -- the array after the in-place shift
    have hdropPre1 : l.drop (pre.length + 1) = post := by
      rw [← List.drop_drop, hdropPre]
      rfl
    have harr2 : shiftDel l pre.length l.length =
        pre ++ post ++ l.drop (l.length - 1) := by
      rw [shiftDel, hdropPre1,
        show l.length - 1 - pre.length = post.length by omega,
        List.take_length,
        show l.take pre.length = pre by rw [hl]; exact List.take_left pre (fin :: post)]
    -- phase 3: walk the rest of the window without further matches
    have htail : ∀ x ∈ l.drop (l.length - 1), post ≠ [] → x ∈ post := by
      intro x hx hpost0
      have : l.drop (l.length - 1) = (fin :: post).drop post.length := by
        rw [show l.length - 1 = pre.length + post.length by omega,
          ← List.drop_drop, hdropPre]
      rw [this] at hx
      have hple : 1 ≤ post.length := by
        cases post with
        | nil => exact absurd rfl hpost0
        | cons _ _ => simp
      have : (fin :: post).drop post.length = post.drop (post.length - 1) := by
        rw [show post.length = (post.length - 1) + 1 by omega]
        rfl
      rw [this] at hx
      exact List.drop_subset _ post hx
    have h3 : removeFinalizerLoop fin post.length (shiftDel l pre.length l.length)
        (l.length - 1) (pre.length + 1) =
        some (shiftDel l pre.length l.length, l.length - 1) := by
      refine removeFinalizerLoop_no_match fin post.length _ _ _ ?_
      intro x hx
      cases hpost0 : post with
      | nil =>
        rw [hpost0] at hx
        simp at hx
      | cons b bs =>
        have hxmem : x ∈ (shiftDel l pre.length l.length).drop (pre.length + 1) :=
          List.take_subset _ _ hx
        rw [harr2] at hxmem
        have hdr : (pre ++ post ++ l.drop (l.length - 1)).drop (pre.length + 1) =
            (post ++ l.drop (l.length - 1)).drop 1 := by
          rw [List.append_assoc, ← List.drop_drop]
          congr 1
          exact List.drop_left pre _
        rw [hdr] at hxmem
        have := List.drop_subset 1 _ hxmem
        rcases List.mem_append.mp this with hc | hc
        · exact hpostne x hc
        · exact hpostne x (htail x hc (by rw [hpost0]; intro hcon; cases hcon))
    -- assemble
    rw [removeFinalizerGo, h1, h2, h3]
    have hfinal : (shiftDel l pre.length l.length).take (l.length - 1) = pre ++ post := by
      rw [harr2, List.append_assoc,
        show l.length - 1 = pre.length + post.length by omega]
      rw [show pre.length + post.length = (pre ++ post).length by simp, ← List.append_assoc]
      exact List.take_left (pre ++ post) _
    have hfilter : l.filter (fun s => s != fin) = pre ++ post := by
      rw [hl, List.filter_append, List.filter_cons]
      have : ((fin != fin) = true) = False := by simp
      rw [if_neg (by simp)]
      rw [List.filter_eq_self.mpr (fun a ha => by simpa using hprene a ha),
        List.filter_eq_self.mpr (fun a ha => by simpa using hpostne a ha)]
    rw [hfilter]
    simp [hfinal]
  · have hall : ∀ x ∈ l, ¬x = fin := fun x hx hxf => hmem (hxf ▸ hx)
    have hfilter : l.filter (fun s => s != fin) = l :=
      List.filter_eq_self.mpr (fun a ha => by simpa using hall a ha)
    rw [removeFinalizerGo,
      removeFinalizerLoop_no_match fin l.length l l.length 0
        (fun x hx => hall x (by simpa using hx))]
    simp [hfilter]

/-- C6 counterexample: on the finalizer list `["a", "a", "x"]` the Go loop
in `RemoveFinalizer` fails to remove the second (adjacent) copy of `"a"` —
the in-place shift moves `"x"` under the iteration index — so `"a"`
survives, refuting removal of all occurrences. -/
theorem removeFinalizer_cex :
    RemoveFinalizer ⟨none, ["a", "a", "x"], 0, 0, []⟩ "a" =
      some ⟨none, ["a", "x"], 0, 0, []⟩ ∧
    RemoveFinalizer ⟨none, ["a", "a", "x"], 0, 0, []⟩ "a" ≠
      some ⟨none, ["a", "a", "x"].filter (fun s => s != "a"), 0, 0, []⟩ := by
  constructor
  · decide
  · decide

/-- C6 amended: when the finalizer occurs at most once in the list (the
case the repository's tests exercise), `RemoveFinalizer` removes every
occurrence, leaving the remaining finalizers in their original order; with
duplicates the loop mis-removes (see the counterexample) or panics. -/
theorem removeFinalizer_single (o : Managed) (fin : String)
    (h : o.finalizers.count fin ≤ 1) :
    RemoveFinalizer o fin =
      some { o with finalizers := o.finalizers.filter (fun s => s != fin) } := by
  rw [RemoveFinalizer, removeFinalizerGo_single o.finalizers fin h]
  rfl

/-- Witness for the amended C6 on a two-element list containing one
occurrence. -/
theorem removeFinalizer_single_witness :
    (["fin", "fun"] : List String).count "fin" ≤ 1 ∧
    RemoveFinalizer ⟨none, ["fin", "fun"], 0, 0, []⟩ "fin" =
      some ⟨none, ["fun"], 0, 0, []⟩ := by
  refine ⟨by decide, ?_⟩
  have h := removeFinalizer_single ⟨none, ["fin", "fun"], 0, 0, []⟩ "fin" (by decide)
  simpa using h

/-- Helper: a `When` call on a known entry within the idle window returns
the clamped exponential backoff and bumps the entry. -/
theorem limiterWhen_found (r : TimedLimiter) (now : Int) (item : String)
    (a : Nat) (last : Int)
    (hl : r.failures.lookup item = some ⟨a, last⟩)
    (hgap : now - last ≤ 2 * r.maxDelay)
    (hm : r.maxDelay ≤ maxInt64) :
    limiterWhen r now item =
      (min (r.baseDelay * 2 ^ a) r.maxDelay,
       { r with failures := setFailure r.failures item ⟨a + 1, now⟩ }) := by
  unfold limiterWhen
  rw [hl]
  simp only [if_neg (not_lt.mpr hgap)]
  by_cases h1 : r.baseDelay * 2 ^ a > maxInt64
  · rw [if_pos h1, min_eq_right (le_trans hm (le_of_lt h1))]
  · rw [if_neg h1]
    by_cases h2 : r.baseDelay * 2 ^ a > r.maxDelay
    · rw [if_pos h2, min_eq_right (le_of_lt h2)]
    · rw [if_neg h2, min_eq_left (not_lt.mp h2)]

/-- Helper: backoff sequence from an arbitrary known entry. -/
theorem whenSeq_backoff (b m : Int) (hm : m ≤ maxInt64) (item : String) :
    ∀ (ts : List Int) (r : TimedLimiter) (a : Nat) (last : Int),
      r.baseDelay = b → r.maxDelay = m →
      r.failures.lookup item = some ⟨a, last⟩ →
      gapsLT (2 * m) last ts = true →
      (whenSeq r item ts).1 = expDelays b m a ts.length := by
  intro ts
  induction ts with
  | nil => intro r a last _ _ _ _; rfl
  | cons t ts ih =>
    intro r a last hb hmd hl hg
    simp only [gapsLT, Bool.and_eq_true, decide_eq_true_eq] at hg
    obtain ⟨hg1, hg2⟩ := hg
    have hstep := limiterWhen_found r t item a last hl (by omega) (by omega)
    simp only [whenSeq, hstep]
    have hlook : (setFailure r.failures item ⟨a + 1, t⟩).lookup item =
        some ⟨a + 1, t⟩ := lookup_cons_self item _ _
    have hZ := ih { r with failures := setFailure r.failures item ⟨a + 1, t⟩ }
      (a + 1) t hb hmd hlook hg2
    simp only [whenSeq, hstep, expDelays, List.length_cons]
    rw [hb, hmd] at hZ ⊢
    rw [hZ]

/-- C8: starting from a fresh exponential timed-failure rate limiter with
base delay `b ≤ m ≤ MaxInt64`, consecutive `When` calls on the same key
spaced less than `2·m` apart return `b, 2b, 4b, …` clamped at `m`
(for `b = 1s`, `m = 5s`: `1s, 2s, 4s, 5s, 5s, …`); and a `When` call
arriving more than `2·m` after the key's last attempt returns `0` without
deleting or updating the key's entry. -/
theorem timedLimiter_backoff_and_idle (b m : Int) (hbm : b ≤ m) (hm : m ≤ maxInt64)
    (item : String) (t0 : Int) (ts : List Int)
    (hgaps : gapsLT (2 * m) t0 ts = true) :
    (whenSeq (newTimedLimiter b m) item (t0 :: ts)).1 =
      expDelays b m 0 (ts.length + 1) ∧
    (∀ (r : TimedLimiter) (fr : FailureRequest) (now : Int),
      r.failures.lookup item = some fr → now - fr.lastAttempt > 2 * r.maxDelay →
      limiterWhen r now item = (0, r)) := by
  constructor
  · have hfirst : limiterWhen (newTimedLimiter b m) t0 item =
        (b, { newTimedLimiter b m with
              failures := setFailure [] item ⟨1, t0⟩ }) := by
      rfl
    simp only [whenSeq, hfirst]
    have hlook : (setFailure ([] : List (String × FailureRequest)) item ⟨1, t0⟩).lookup item =
        some ⟨1, t0⟩ := lookup_cons_self item _ _
    have hrest := whenSeq_backoff b m hm item ts
      { newTimedLimiter b m with failures := setFailure [] item ⟨1, t0⟩ }
      1 t0 rfl rfl hlook hgaps
    simp only [hrest, expDelays]
    have : min (b * 2 ^ (0 : Nat)) m = b := by
      rw [pow_zero, mul_one, min_eq_left hbm]
    rw [this]
  · intro r fr now hl hidle
    simp only [limiterWhen, hl]
    rw [if_pos hidle]

/-- Witness for C8 with `b = 1s`, `m = 5s` (nanoseconds) and calls spaced
one second apart, followed by an idle call more than ten seconds later. -/
theorem timedLimiter_backoff_and_idle_witness :
    (whenSeq (newTimedLimiter 1000000000 5000000000) "k"
        [0, 1000000000, 2000000000, 3000000000, 4000000000]).1 =
      [1000000000, 2000000000, 4000000000, 5000000000, 5000000000] ∧
    limiterWhen ⟨[("k", ⟨5, 4000000000⟩)], 1000000000, 5000000000⟩ 100000000000 "k" =
      (0, ⟨[("k", ⟨5, 4000000000⟩)], 1000000000, 5000000000⟩) := by
  have h := timedLimiter_backoff_and_idle 1000000000 5000000000 (by decide) (by decide)
    "k" 0 [1000000000, 2000000000, 3000000000, 4000000000] (by decide)
  constructor
  · rw [h.1]
    decide
  · exact h.2 ⟨[("k", ⟨5, 4000000000⟩)], 1000000000, 5000000000⟩ ⟨5, 4000000000⟩
      100000000000 (lookup_cons_self _ _ _) (by decide)

/-- C9: when the dispatcher first sees a key (not in the limited-set) and
the limiter replies `d > 0`, the first `Reconcile` returns
`RequeueAfter = d` with a nil error without invoking the inner
reconciler; the next `Reconcile` of the same key forwards to the inner
reconciler and returns its result, does not consult the limiter's `When`,
and calls `Forget` on the key before forwarding. -/
theorem rlReconcile_first_then_returning (name req : String) (limited : List String)
    (d d2 : Int) (out1 out2 : Result × Option KErr)
    (hnot : name ++ req ∉ limited) (hd : d > 0) :
    (rlReconcile name req limited d out1).res = ⟨false, d⟩ ∧
    (rlReconcile name req limited d out1).err = none ∧
    (∀ r, RLCall.inner r ∉ (rlReconcile name req limited d out1).trace) ∧
    (rlReconcile name req (rlReconcile name req limited d out1).limited d2 out2).res =
      out2.1 ∧
    (rlReconcile name req (rlReconcile name req limited d out1).limited d2 out2).err =
      out2.2 ∧
    (rlReconcile name req (rlReconcile name req limited d out1).limited d2 out2).trace =
      [RLCall.forget (name ++ req), RLCall.inner req] := by
  have hd0 : (d != 0) = true := by
    simp only [bne_iff_ne, ne_eq]
    omega
  have h1 : rlReconcile name req limited d out1 =
      ⟨⟨false, d⟩, none, (name ++ req) :: limited, [RLCall.whenCall (name ++ req)]⟩ := by
    simp only [rlReconcile, if_neg hnot, hd0, if_true, if_pos hd]
  have hmem : name ++ req ∈ (name ++ req) :: limited := List.mem_cons_self _ _
  have h2 : rlReconcile name req ((name ++ req) :: limited) d2 out2 =
      ⟨out2.1, out2.2, ((name ++ req) :: limited).erase (name ++ req),
        [RLCall.forget (name ++ req), RLCall.inner req]⟩ := by
    simp only [rlReconcile, if_pos hmem]
  rw [h1]
  refine ⟨rfl, rfl, ?_, ?_, ?_, ?_⟩
  · intro r hr
    simp at hr
  · show (rlReconcile name req ((name ++ req) :: limited) d2 out2).res = out2.1
    rw [h2]
  · show (rlReconcile name req ((name ++ req) :: limited) d2 out2).err = out2.2
    rw [h2]
  · show (rlReconcile name req ((name ++ req) :: limited) d2 out2).trace =
      [RLCall.forget (name ++ req), RLCall.inner req]
    rw [h2]

/-- Witness for C9 at a fresh dispatcher, an 8-second delay, and an inner
reconciler that reports a 3-second poll. -/
theorem rlReconcile_first_then_returning_witness :
    (rlReconcile "n" "r" [] 8 (⟨false, 0⟩, none)).res = ⟨false, 8⟩ ∧
    (rlReconcile "n" "r" ((rlReconcile "n" "r" [] 8 (⟨false, 0⟩, none)).limited) 99
        (⟨false, 3⟩, none)).trace =
      [RLCall.forget ("n" ++ "r"), RLCall.inner "r"] := by
  have h := rlReconcile_first_then_returning "n" "r" [] 8 99 (⟨false, 0⟩, none)
    (⟨false, 3⟩, none) (by simp) (by norm_num)
  exact ⟨h.1, h.2.2.2.2.2⟩

/-- Helper: upserting a condition makes it a member of the set. -/
theorem mem_upsertCond (cur : List Condition) (c : Condition) : c ∈ upsertCond cur c := by
  unfold upsertCond
  by_cases h : cur.any (fun c0 => c0.ctype == c.ctype) = true
  · rw [if_pos h]
    obtain ⟨c0, hc0, hct⟩ := List.any_eq_true.mp h
    refine List.mem_map.mpr ⟨c0, hc0, ?_⟩
    rw [if_pos hct]
  · rw [if_neg h]
    exact List.mem_append_right _ (List.mem_singleton.mpr rfl)

/-- Helper: upserting a condition of a different type preserves
membership. -/
theorem mem_upsertCond_of_ne (cur : List Condition) (c c2 : Condition)
    (h : c ∈ cur) (hne : c.ctype ≠ c2.ctype) : c ∈ upsertCond cur c2 := by
  unfold upsertCond
  by_cases hb : cur.any (fun c0 => c0.ctype == c2.ctype) = true
  · rw [if_pos hb]
    refine List.mem_map.mpr ⟨c, h, ?_⟩
    rw [if_neg (by simpa using hne)]
  · rw [if_neg hb]
    exact List.mem_append_left _ h

/-- Helper: a single upserted condition is in the final set. -/
theorem mem_setConditions_single (o : Managed) (c : Condition) :
    c ∈ (SetConditions o [c]).conditions := by
  simp only [SetConditions, List.foldl_cons, List.foldl_nil]
  exact mem_upsertCond _ c

/-- Helper: the first of two upserted conditions of distinct types is in
the final set. -/
theorem mem_setConditions_pair_left (o : Managed) (c1 c2 : Condition)
    (hne : c1.ctype ≠ c2.ctype) : c1 ∈ (SetConditions o [c1, c2]).conditions := by
  simp only [SetConditions, List.foldl_cons, List.foldl_nil]
  exact mem_upsertCond_of_ne _ c1 c2 (mem_upsertCond _ c1) hne

/-- Helper: the second of two upserted conditions is in the final set. -/
theorem mem_setConditions_pair_right (o : Managed) (c1 c2 : Condition) :
    c2 ∈ (SetConditions o [c1, c2]).conditions := by
  simp only [SetConditions, List.foldl_cons, List.foldl_nil]
  exact mem_upsertCond _ c2

/-- C3: when the loaded object's `krateo.io/paused` annotation equals
exactly `"true"`, Reconcile performs no Connect, Observe, Create, Update
or Delete call, sets the `Synced=ReconcilePaused` condition, performs
exactly one status update, and returns an empty result whose error is the
(wrapped) status-update error — nil when the status update succeeds. -/
theorem reconcile_paused (p : Params) (env : Env)
    (hget : env.getErr = none)
    (hp : getAnn env.managed0 AnnotationKeyReconciliationPaused = "true") :
    (Reconcile p env).res = ⟨false, 0⟩ ∧
    (Reconcile p env).err = wrapOpt env.statusUpdateErr errUpdateManagedStatus ∧
    (env.statusUpdateErr = none → (Reconcile p env).err = none) ∧
    (Reconcile p env).trace.count Call.statusUpdate = 1 ∧
    Call.connect ∉ (Reconcile p env).trace ∧
    Call.observe ∉ (Reconcile p env).trace ∧
    Call.createExt ∉ (Reconcile p env).trace ∧
    Call.updateExt ∉ (Reconcile p env).trace ∧
    Call.deleteExt ∉ (Reconcile p env).trace ∧
    CondReconcilePaused ∈ (Reconcile p env).mg.conditions := by
  have hpaused : IsPaused env.managed0 = true := by
    simp [IsPaused, hp]
  have hred : Reconcile p env =
      ⟨⟨false, 0⟩, wrapOpt env.statusUpdateErr errUpdateManagedStatus,
       SetConditions env.managed0 [CondReconcilePaused],
       [Call.getManaged, Call.statusUpdate]⟩ := by
    simp only [Reconcile, hget, hpaused, if_true]
  rw [hred]
  refine ⟨rfl, rfl, ?_, by simp, by simp, by simp, by simp, by simp, by simp, ?_⟩
  · intro h0
    simp [wrapOpt, h0]
  · exact mem_setConditions_single _ _

/-- Witness for C3 at the concrete paused environment. -/
theorem reconcile_paused_witness :
    (Reconcile witnessParams pausedEnvW).res = ⟨false, 0⟩ ∧
    Call.connect ∉ (Reconcile witnessParams pausedEnvW).trace ∧
    CondReconcilePaused ∈ (Reconcile witnessParams pausedEnvW).mg.conditions := by
  have h := reconcile_paused witnessParams pausedEnvW rfl (by decide)
  exact ⟨h.1, h.2.2.2.2.1, h.2.2.2.2.2.2.2.2.2⟩

/-- C1: in a pass where the loaded object is not paused, the
delete-with-orphan short circuit does not apply, and
`ExternalCreateIncomplete` holds, Reconcile neither connects to the
provider nor calls `Client.Create`; it sets the `Ready=Creating` and
`Synced=ReconcileError(errCreateIncomplete)` conditions, attempts exactly
one status update, and returns a result with `Requeue = false`. -/
theorem reconcile_leak_guard (p : Params) (env : Env)
    (hget : env.getErr = none)
    (hp : IsPaused env.managed0 = false)
    (horphan : (WasDeleted env.managed0 && !ShouldDelete env.managed0) = false)
    (hinc : ExternalCreateIncomplete p.parse env.managed0 = true) :
    Call.connect ∉ (Reconcile p env).trace ∧
    Call.createExt ∉ (Reconcile p env).trace ∧
    CondCreating ∈ (Reconcile p env).mg.conditions ∧
    CondReconcileError (KErr.other errCreateIncomplete) ∈ (Reconcile p env).mg.conditions ∧
    (Reconcile p env).trace.count Call.statusUpdate = 1 ∧
    (Reconcile p env).res.requeue = false := by
  have hred : Reconcile p env =
      ⟨⟨false, 0⟩, wrapOpt env.statusUpdateErr errUpdateManagedStatus,
       SetConditions env.managed0
         [CondCreating, CondReconcileError (KErr.other errCreateIncomplete)],
       [Call.getManaged, Call.statusUpdate]⟩ := by
    simp only [Reconcile, hget, hp, horphan, hinc, Bool.false_eq_true, if_false, if_true]
  rw [hred]
  refine ⟨by simp, by simp, ?_, ?_, by simp, rfl⟩
  · exact mem_setConditions_pair_left env.managed0 CondCreating
      (CondReconcileError (KErr.other errCreateIncomplete)) (by decide)
  · exact mem_setConditions_pair_right env.managed0 CondCreating
      (CondReconcileError (KErr.other errCreateIncomplete))

/-- Witness for C1 at the concrete leak-guard environment. -/
theorem reconcile_leak_guard_witness :
    Call.connect ∉ (Reconcile witnessParams leakEnvW).trace ∧
    Call.createExt ∉ (Reconcile witnessParams leakEnvW).trace ∧
    (Reconcile witnessParams leakEnvW).res.requeue = false := by
  have h := reconcile_leak_guard witnessParams leakEnvW rfl (by decide) (by decide)
    (by decide)
  exact ⟨h.1, h.2.1, h.2.2.2.2.2⟩

/-- Helper: replacing the bindings of key `k` by `(k, v)` makes `k` look
up to `v` when some entry carried `k`. -/
theorem lookup_map_set (l : AnnMap) (k v : String)
    (h : l.any (fun p => p.1 == k) = true) :
    (l.map (fun p => if p.1 == k then (k, v) else p)).lookup k = some v := by
  induction l with
  | nil => simp at h
  | cons a t ih =>
    obtain ⟨x, y⟩ := a
    by_cases hx : x = k
    · subst hx
      simp only [List.map_cons]
      rw [if_pos (by simp)]
      exact lookup_cons_self x v _
    · have hxf : ((x, y).1 == k) = false := beq_eq_false_iff_ne.mpr hx
      simp only [List.map_cons]
      rw [if_neg (by simp [hx])]
      rw [lookup_cons_ne x k y _ (beq_eq_false_iff_ne.mpr (Ne.symm hx))]
      apply ih
      simpa [hxf] using h

/-- Helper: appending a binding for `k` to a list with no entry for `k`
makes `k` look up to the appended value. -/
theorem lookup_append_self_of_not_any (l : AnnMap) (k v : String)
    (h : l.any (fun p => p.1 == k) = false) : (l ++ [(k, v)]).lookup k = some v := by
  induction l with
  | nil => exact lookup_cons_self k v []
  | cons a t ih =>
    obtain ⟨x, y⟩ := a
    have hx : ((x, y).1 == k) = false := by
      by_contra hcon
      simp only [Bool.not_eq_false] at hcon
      rw [List.any_cons, hcon, Bool.true_or] at h
      cases h
    have ht : t.any (fun p => p.1 == k) = false := by
      rw [List.any_cons, hx, Bool.false_or] at h
      exact h
    have hxk : ¬ x = k := by simpa using hx
    rw [List.cons_append,
      lookup_cons_ne x k y _ (beq_eq_false_iff_ne.mpr (fun hc => hxk hc.symm))]
    exact ih ht

/-- Helper: a Go map assignment makes the key look up to the assigned
value. -/
theorem lookup_upsertAnn_self (l : AnnMap) (k v : String) :
    (upsertAnn l k v).lookup k = some v := by
  unfold upsertAnn
  by_cases h : l.any (fun p => p.1 == k) = true
  · rw [if_pos h]
    exact lookup_map_set l k v h
  · rw [if_neg h]
    refine lookup_append_self_of_not_any l k v ?_
    simp only [Bool.not_eq_true] at h
    exact h

/-- Helper: after `AddAnnotations(o, [(k, v)])` the key `k` reads `v`. -/
theorem getAnnOpt_add_single (o : Managed) (k v : String) :
    getAnnOpt (AddAnnotations o [(k, v)]) k = some v := by
  cases ho : o.anns with
  | none => simp [AddAnnotations, getAnnOpt, ho, lookup_cons_self]
  | some l =>
    simp only [AddAnnotations, ho, getAnnOpt, List.foldl_cons, List.foldl_nil]
    exact lookup_upsertAnn_self l k v

/-- Helper: after stamping, the pending annotation reads the formatted
current time. -/
theorem pending_ann_of_setPending (p : Params) (mg : Managed) :
    getAnnOpt (SetExternalCreatePending p.fmt mg p.now)
      AnnotationKeyExternalCreatePending = some (p.fmt p.now) :=
  getAnnOpt_add_single mg _ _

/-- Helper: the up-to-date / update tail never calls Create and never
issues the pending-annotation update. -/
theorem upToDate_no_create (p : Params) (env : Env) (mg : Managed)
    (obs : ExternalObservation) :
    Call.createExt ∉ (upToDateOrUpdatePath p env mg obs).trace ∧
    ∀ v, Call.updatePending v ∉ (upToDateOrUpdatePath p env mg obs).trace := by
  unfold upToDateOrUpdatePath
  split
  · exact ⟨by simp, fun v => by simp⟩
  split
  · exact ⟨by simp, fun v => by simp⟩
  split
  · exact ⟨by simp, fun v => by simp⟩
  · exact ⟨by simp, fun v => by simp⟩

/-- Helper: the late-init path never calls Create and never issues the
pending-annotation update. -/
theorem lateInit_no_create (p : Params) (env : Env) (mg : Managed)
    (obs : ExternalObservation) :
    Call.createExt ∉ (lateInitPath p env mg obs).trace ∧
    ∀ v, Call.updatePending v ∉ (lateInitPath p env mg obs).trace := by
  obtain ⟨h1, h2⟩ := upToDate_no_create p env mg obs
  unfold lateInitPath
  split
  · split
    · exact ⟨by simp, fun v => by simp⟩
    · refine ⟨?_, fun v => ?_⟩
      · simp only [List.mem_cons]
        rintro (hc | hc)
        · cases hc
        · exact h1 hc
      · simp only [List.mem_cons]
        rintro (hc | hc)
        · cases hc
        · exact h2 v hc
  · exact ⟨h1, h2⟩

/-- Helper: the deletion path never calls Create and never issues the
pending-annotation update. -/
theorem deleted_no_create (env : Env) (mg : Managed) (obs : ExternalObservation) :
    Call.createExt ∉ (deletedPath env mg obs).trace ∧
    ∀ v, Call.updatePending v ∉ (deletedPath env mg obs).trace := by
  unfold deletedPath
  split
  · split <;> exact ⟨by simp, fun v => by simp⟩
  split
  · split <;> exact ⟨by simp, fun v => by simp⟩
  · exact ⟨by simp, fun v => by simp⟩

/-- Helper: with the pending update persisted, the create path's trace is
the pending update immediately followed by the Create call. -/
theorem createPath_trace_ok (p : Params) (env : Env) (mg : Managed)
    (h : env.updatePendingErr = none) :
    ∃ tl, (createPath p env mg).trace =
      Call.updatePending (some (p.fmt p.now)) :: Call.createExt :: tl := by
  cases hc : env.createErr with
  | some e =>
    by_cases hconf : isConflict e = true
    · exact ⟨[], by simp only [createPath, h, hc, pending_ann_of_setPending, if_pos hconf]⟩
    · exact ⟨[Call.updateCritical, Call.statusUpdate],
        by simp only [createPath, h, hc, pending_ann_of_setPending, if_neg hconf]⟩
  | none =>
    cases hcrit : env.criticalAnnsSucceededErr with
    | some e =>
      exact ⟨[Call.updateCritical, Call.statusUpdate],
        by simp only [createPath, h, hc, hcrit, pending_ann_of_setPending]⟩
    | none =>
      exact ⟨[Call.updateCritical, Call.statusUpdate],
        by simp only [createPath, h, hc, hcrit, pending_ann_of_setPending]⟩

/-- Helper: when the pending update fails, the create path stops before
Create; its trace is the failed update alone or followed by the status
update. -/
theorem createPath_trace_failed (p : Params) (env : Env) (mg : Managed) (e : KErr)
    (h : env.updatePendingErr = some e) :
    (createPath p env mg).trace = [Call.updatePending (some (p.fmt p.now))] ∨
    (createPath p env mg).trace =
      [Call.updatePending (some (p.fmt p.now)), Call.statusUpdate] := by
  by_cases hconf : isConflict e = true
  · exact Or.inl (by simp only [createPath, h, pending_ann_of_setPending, if_pos hconf])
  · exact Or.inr (by simp only [createPath, h, pending_ann_of_setPending, if_neg hconf])

/-- Helper: a conflict on the pending update yields a bare requeue with a
nil error. -/
theorem createPath_conflict (p : Params) (env : Env) (mg : Managed)
    (h : env.updatePendingErr = some KErr.conflict) :
    (createPath p env mg).res = ⟨true, 0⟩ ∧ (createPath p env mg).err = none := by
  constructor <;>
    simp only [createPath, h, pending_ann_of_setPending, isConflict, if_pos]

/-- Helper: the create-pending protocol holds of every `afterObserve`
outcome — Create appears in the trace only strictly after a successful
pending-annotation update stamped with the formatted current time; a
failed pending update suppresses Create; a conflicting pending update
yields a bare requeue with nil error. -/
theorem afterObserve_create_protocol (p : Params) (env : Env) (mg : Managed)
    (obs : ExternalObservation) :
    (Call.createExt ∈ (afterObserve p env mg obs).trace →
      env.updatePendingErr = none ∧
      ∃ l1 l2, (afterObserve p env mg obs).trace =
        l1 ++ Call.updatePending (some (p.fmt p.now)) :: l2 ∧ Call.createExt ∈ l2) ∧
    (env.updatePendingErr ≠ none → Call.createExt ∉ (afterObserve p env mg obs).trace) ∧
    (∀ v, Call.updatePending v ∈ (afterObserve p env mg obs).trace →
      env.updatePendingErr = some KErr.conflict →
      (afterObserve p env mg obs).res = ⟨true, 0⟩ ∧
      (afterObserve p env mg obs).err = none) := by
  unfold afterObserve
  split
  · exact ⟨fun hc => absurd hc (by simp), fun _ => by simp, fun v hv _ => absurd hv (by simp)⟩
  split
  · exact ⟨fun hc => absurd hc (by simp), fun _ => by simp, fun v hv _ => absurd hv (by simp)⟩
  split
  · obtain ⟨d1, d2⟩ := deleted_no_create env mg obs
    exact ⟨fun hc => absurd hc d1, fun _ => d1, fun v hv _ => absurd hv (d2 v)⟩
  split
  · split
    · exact ⟨fun hc => absurd hc (by simp), fun _ => by simp, fun v hv _ => absurd hv (by simp)⟩
    · exact ⟨fun hc => absurd hc (by simp), fun _ => by simp, fun v hv _ => absurd hv (by simp)⟩
  · split
    · refine ⟨?_, ?_, ?_⟩
      · intro hc
        cases hupd : env.updatePendingErr with
        | some e =>
          rcases createPath_trace_failed p env mg e hupd with htr | htr <;>
            · rw [htr] at hc
              simp at hc
        | none =>
          obtain ⟨tl, htr⟩ := createPath_trace_ok p env mg hupd
          refine ⟨rfl, [Call.addFin], Call.createExt :: tl, ?_, List.mem_cons_self _ _⟩
          rw [htr]
          rfl
      · intro hne hc
        obtain ⟨e, hupd⟩ := Option.ne_none_iff_exists'.mp hne
        rcases createPath_trace_failed p env mg e hupd with htr | htr <;>
          · rw [htr] at hc
            simp at hc
      · intro v hv hcnf
        obtain ⟨hres, herr⟩ := createPath_conflict p env mg hcnf
        exact ⟨hres, herr⟩
    · obtain ⟨d1, d2⟩ := lateInit_no_create p env mg obs
      refine ⟨?_, ?_, ?_⟩
      · intro hc
        rcases List.mem_cons.mp hc with h0 | h0
        · cases h0
        · exact absurd h0 d1
      · intro _ hc
        rcases List.mem_cons.mp hc with h0 | h0
        · cases h0
        · exact absurd h0 d1
      · intro v hv _
        rcases List.mem_cons.mp hv with h0 | h0
        · cases h0
        · exact absurd h0 (d2 v)

/-- C2: in every reconcile pass, `Client.Create` is invoked only after
`SetExternalCreatePending` has stamped the object with the current time
and a plain non-retrying client Update has persisted that annotation
successfully (the update strictly precedes the Create in the trace and its
outcome is success); if that Update fails, Create is not called in the
pass; and a conflict on that Update yields `Requeue = true` with a nil
error. -/
theorem reconcile_create_pending_protocol (p : Params) (env : Env) :
    (Call.createExt ∈ (Reconcile p env).trace →
      env.updatePendingErr = none ∧
      ∃ l1 l2, (Reconcile p env).trace =
        l1 ++ Call.updatePending (some (p.fmt p.now)) :: l2 ∧ Call.createExt ∈ l2) ∧
    (env.updatePendingErr ≠ none → Call.createExt ∉ (Reconcile p env).trace) ∧
    (∀ v, Call.updatePending v ∈ (Reconcile p env).trace →
      env.updatePendingErr = some KErr.conflict →
      (Reconcile p env).res = ⟨true, 0⟩ ∧ (Reconcile p env).err = none) := by
  obtain ⟨e1, e2, e3⟩ := afterObserve_create_protocol p env env.managed0 env.observation
  cases hget : env.getErr with
  | some e =>
    simp only [Reconcile, hget]
    exact ⟨fun hc => absurd hc (by simp), fun _ => by simp, fun v hv _ => absurd hv (by simp)⟩
  | none =>
    simp only [Reconcile, hget]
    split
    · exact ⟨fun hc => absurd hc (by simp), fun _ => by simp, fun v hv _ => absurd hv (by simp)⟩
    split
    · split
      · split
        · exact ⟨fun hc => absurd hc (by simp), fun _ => by simp,
            fun v hv _ => absurd hv (by simp)⟩
        · exact ⟨fun hc => absurd hc (by simp), fun _ => by simp,
            fun v hv _ => absurd hv (by simp)⟩
      · exact ⟨fun hc => absurd hc (by simp), fun _ => by simp,
          fun v hv _ => absurd hv (by simp)⟩
    split
    · exact ⟨fun hc => absurd hc (by simp), fun _ => by simp, fun v hv _ => absurd hv (by simp)⟩
    split
    · split
      · exact ⟨fun hc => absurd hc (by simp), fun _ => by simp,
          fun v hv _ => absurd hv (by simp)⟩
      · exact ⟨fun hc => absurd hc (by simp), fun _ => by simp,
          fun v hv _ => absurd hv (by simp)⟩
    split
    · split
      · exact ⟨fun hc => absurd hc (by simp), fun _ => by simp,
          fun v hv _ => absurd hv (by simp)⟩
      · exact ⟨fun hc => absurd hc (by simp), fun _ => by simp,
          fun v hv _ => absurd hv (by simp)⟩
    · refine ⟨?_, ?_, ?_⟩
      · intro hc
        have hcm : Call.createExt ∈ (afterObserve p env env.managed0 env.observation).trace := by
          simpa using hc
        obtain ⟨hnone, l1, l2, htr, hcl2⟩ := e1 hcm
        refine ⟨hnone, [Call.getManaged, Call.connect, Call.observe] ++ l1,
          l2 ++ [Call.disconnect], ?_, List.mem_append_left _ hcl2⟩
        rw [htr]
        simp
      · intro hne hc
        have hcm : Call.createExt ∈ (afterObserve p env env.managed0 env.observation).trace := by
          simpa using hc
        exact absurd hcm (e2 hne)
      · intro v hv hcnf
        have hvm : Call.updatePending v ∈ (afterObserve p env env.managed0 env.observation).trace := by
          simpa using hv
        exact e3 v hvm hcnf

/-- Witness for C2: the realised create path contains the Create call
with the pending update persisted, and the conflicting pending update
yields a bare requeue with a nil error. -/
theorem reconcile_create_pending_protocol_witness :
    (Call.createExt ∈ (Reconcile witnessParams createEnvW).trace ∧
     createEnvW.updatePendingErr = none) ∧
    ((Reconcile witnessParams conflictEnvW).res = ⟨true, 0⟩ ∧
     (Reconcile witnessParams conflictEnvW).err = none) := by
  constructor
  · exact ⟨by decide,
      ((reconcile_create_pending_protocol witnessParams createEnvW).1 (by decide)).1⟩
  · exact (reconcile_create_pending_protocol witnessParams conflictEnvW).2.2
      (some "t1") (by decide) rfl

end ProviderRuntime
